import Mathlib

/-!
Verification of the cells-ai simulation core against its specification.

The Rust sources are shallowly embedded: machine floats (`f32`) are modelled
as rationals with exact arithmetic, the global random number generator is
modelled as an explicit sample stream passed to the functions that draw from
it, and the trigonometric functions used by locomotion are abstract
parameters (their values never influence the verified properties).
-/

namespace CellsAI

/-! ### Constants from `cell.rs` -/

def METABOLISM_ENERGY_LOSS : ℚ := 3 / 100
def CORPSE_DECAY_RATE : ℚ := 2 / 100
def TURN_ENERGY_COST : ℚ := 45 / 100
def FORWARD_ENERGY_COST : ℚ := 9 / 10
def GROWTH_AGE_THRESHOLD : ℚ := 20
def ADULT_AGE_THRESHOLD : ℚ := 30
def MAX_AGE_FOR_COST : ℚ := 100
def MIN_RADIUS_PERCENT : ℚ := 1 / 10
def MAX_AGE_COST_MULTIPLIER : ℚ := 2

/-! ### Constants from `world.rs` -/

def TARGET_MIN_FPS : ℚ := 30
def TARGET_MAX_FPS : ℚ := 240
def ADJUSTMENT_INTERVAL : ℚ := 2
def CELL_CAP_STEP : ℕ := 100
def SENSOR_RANGE : ℚ := 200
def REPRODUCTION_ENERGY_THRESHOLD : ℚ := 100
def CHILD_ENERGY_FRAC : ℚ := 2 / 3
def PARENT_ENERGY_FRAC : ℚ := 1 / 3
def DEPLETED_CELL_ENERGY : ℚ := -100

/-- The `f32` value of `std::f32::consts::PI` (the float nearest to pi),
as an exact rational. Used by sensor normalization. -/
def F32_PI : ℚ := 13176795 / 4194304

/-- `MAX_MASS` constant from `Cell::normalize_sensors`. -/
def MAX_MASS : ℚ := 220

/-- Rust `f32::clamp(lo, hi)`: bring a value into the interval `[lo, hi]`. -/
def clampQ (x lo hi : ℚ) : ℚ :=
  if x < lo then lo else if hi < x then hi else x

/-- Rust `f32::rem_euclid`: the representative of `x` modulo `w` lying in
`[0, w)` when `0 < w`, modelled over exact rationals. -/
def remEuclid (x w : ℚ) : ℚ := x - w * ⌊x / w⌋

/-! ### `neural_network.rs` -/

/-- `NeuralNetwork` struct from `neural_network.rs`: two weight matrices,
two bias vectors, and the declared layer sizes. -/
structure NeuralNetwork where
  weights_ih : List (List ℚ)
  bias_h : List ℚ
  weights_ho : List (List ℚ)
  bias_o : List ℚ
  input_size : ℕ
  hidden_size : ℕ
  output_size : ℕ
  deriving DecidableEq, Repr

/-- `NeuralNetwork::relu`. -/
def relu (x : ℚ) : ℚ := max x 0

/-- `NeuralNetwork::forward`: hidden activations are
`relu (bias_h i + sum j, weights_ih i j * inputs j)`; output activations are
`bias_o i + sum j, weights_ho i j * hidden j` with no output nonlinearity.
Indexing out of range reads 0, which never happens on the well-formed
networks the program builds. -/
def NeuralNetwork.forward (nn : NeuralNetwork) (inputs : List ℚ) : List ℚ :=
  let hidden := (List.range nn.hidden_size).map (fun i =>
    relu ((nn.bias_h.getD i 0) +
      ((List.range nn.input_size).map
        (fun j => (nn.weights_ih.getD i []).getD j 0 * inputs.getD j 0)).sum))
  (List.range nn.output_size).map (fun i =>
    (nn.bias_o.getD i 0) +
      ((List.range nn.hidden_size).map
        (fun j => (nn.weights_ho.getD i []).getD j 0 * hidden.getD j 0)).sum)

/-- One step of Rust `Iterator::max_by` over `(index, value)` pairs with the
value comparison used in `get_best_action`: the accumulator survives only
when its value is strictly greater, so on ties the later element wins. -/
def maxByStep (acc : Option (ℕ × ℚ)) (x : ℕ × ℚ) : Option (ℕ × ℚ) :=
  match acc with
  | none => some x
  | some a => if x.2 < a.2 then some a else some x

/-- `NeuralNetwork::get_best_action`: index of the maximal forward-pass
output under `max_by` (last maximum wins), defaulting to 0 for an empty
output vector. -/
def NeuralNetwork.get_best_action (nn : NeuralNetwork) (inputs : List ℚ) : ℕ :=
  match (nn.forward inputs).enum.foldl maxByStep none with
  | some p => p.1
  | none => 0

/-- One candidate mutation from `NeuralNetwork::mutate`: draw `g k` from
`gen_range(0.0, 1.0)`; when it is below the rate, draw a delta `g (k+1)`
from `gen_range(-0.1, 0.1)`, add it and clamp to `[-2, 2]`. Returns the new
value and the next position in the sample stream. -/
def mutateVal (rate : ℚ) (g : ℕ → ℚ) (k : ℕ) (v : ℚ) : ℚ × ℕ :=
  if g k < rate then (clampQ (v + g (k + 1)) (-2) 2, k + 2) else (v, k + 1)

/-- Mutate each entry of a vector in order, threading the sample stream. -/
def mutateList (rate : ℚ) (g : ℕ → ℚ) : List ℚ → ℕ → List ℚ × ℕ
  | [], k => ([], k)
  | v :: vs, k =>
    let p := mutateVal rate g k v
    let q := mutateList rate g vs p.2
    (p.1 :: q.1, q.2)

/-- Mutate each row of a weight matrix in order, threading the stream. -/
def mutateGrid (rate : ℚ) (g : ℕ → ℚ) : List (List ℚ) → ℕ → List (List ℚ) × ℕ
  | [], k => ([], k)
  | row :: rows, k =>
    let p := mutateList rate g row k
    let q := mutateGrid rate g rows p.2
    (p.1 :: q.1, q.2)

/-- `NeuralNetwork::mutate`: clamp the rate to `[0,1]`, then sweep
`weights_ih`, `bias_h`, `weights_ho`, `bias_o` in that order, perturbing
each entry with probability `rate`. -/
def NeuralNetwork.mutate (nn : NeuralNetwork) (rate : ℚ) (g : ℕ → ℚ) : NeuralNetwork :=
  let r := clampQ rate 0 1
  let a := mutateGrid r g nn.weights_ih 0
  let b := mutateList r g nn.bias_h a.2
  let c := mutateGrid r g nn.weights_ho b.2
  let d := mutateList r g nn.bias_o c.2
  { nn with weights_ih := a.1, bias_h := b.1, weights_ho := c.1, bias_o := d.1 }

/-! ### `cell.rs` -/

/-- `CellState` enum. -/
inductive CellState where
  | Alive : CellState
  | Corpse : CellState
  deriving DecidableEq, Repr

/-- macroquad `Color` (four `f32` channels). -/
structure ColorQ where
  r : ℚ
  g : ℚ
  b : ℚ
  a : ℚ
  deriving DecidableEq, Repr

/-- `Cell` struct from `cell.rs`, with every field of the Rust struct. -/
structure Cell where
  x : ℚ
  y : ℚ
  velocity_x : ℚ
  velocity_y : ℚ
  energy : ℚ
  angle : ℚ
  angle_velocity : ℚ
  state : CellState
  age : ℚ
  total_energy_accumulated : ℚ
  children_count : ℕ
  generation : ℕ
  nearest_cells : List (ℕ × ℚ × ℚ × ℚ × ℚ)
  brain : NeuralNetwork
  color : ColorQ
  radius : ℚ
  move_probability : ℚ
  turn_probability : ℚ
  speed : ℚ
  turn_rate : ℚ
  energy_chunk_size : ℚ
  species_multiplier : ℚ
  mass : ℚ
  deriving DecidableEq, Repr

/-- `Cell::get_age_cost_multiplier`: rises linearly from 1.0 at age 0 to
`MAX_AGE_COST_MULTIPLIER` at age `MAX_AGE_FOR_COST`, then stays there. -/
def Cell.get_age_cost_multiplier (c : Cell) : ℚ :=
  1 + (min (c.age / MAX_AGE_FOR_COST) 1) * (MAX_AGE_COST_MULTIPLIER - 1)

/-- The age-scaled cost of a turn action. -/
def Cell.turnCost (c : Cell) : ℚ := TURN_ENERGY_COST * c.get_age_cost_multiplier

/-- The age-scaled cost of the forward action. -/
def Cell.forwardCost (c : Cell) : ℚ := FORWARD_ENERGY_COST * c.get_age_cost_multiplier

/-- `Cell::turn_left`: pay the age-scaled turn cost and decrease the angular
velocity, or do nothing when the energy cannot cover the cost. -/
def Cell.turn_left (c : Cell) : Cell :=
  let cost := c.turnCost
  if cost ≤ c.energy then
    { c with angle_velocity := c.angle_velocity - c.turn_rate, energy := c.energy - cost }
  else c

/-- `Cell::turn_right`: pay the age-scaled turn cost and increase the
angular velocity, or do nothing when the energy cannot cover the cost. -/
def Cell.turn_right (c : Cell) : Cell :=
  let cost := c.turnCost
  if cost ≤ c.energy then
    { c with angle_velocity := c.angle_velocity + c.turn_rate, energy := c.energy - cost }
  else c

/-- `Cell::forward`: pay the age-scaled forward cost and set the velocity to
`speed` in the facing direction, or do nothing when the energy cannot cover
the cost. `cosf` and `sinf` abstract the `f32` cosine and sine. -/
def Cell.forward (c : Cell) (cosf sinf : ℚ → ℚ) : Cell :=
  let cost := c.forwardCost
  if cost ≤ c.energy then
    { c with velocity_x := cosf c.angle * c.speed,
             velocity_y := sinf c.angle * c.speed,
             energy := c.energy - cost }
  else c

/-- `Cell::normalize_sensors`: 5 sensor slots of 4 features each; an
occupied slot yields the normalized angle, proximity, mass and aliveness, an
empty slot yields four `-1` values. -/
def Cell.normalize_sensors (c : Cell) : List ℚ :=
  ((List.range 5).map (fun i =>
    match c.nearest_cells.get? i with
    | some s =>
        [s.2.1 / F32_PI,
         ((SENSOR_RANGE - s.2.2.1) / SENSOR_RANGE) * 2 - 1,
         (s.2.2.2.1 / MAX_MASS) * 2 - 1,
         s.2.2.2.2 * 2 - 1]
    | none => [-1, -1, -1, -1])).flatten

/-- `Cell::decide_action`: feed the normalized sensors to the brain and
apply the action selected by `get_best_action`. -/
def Cell.decide_action (c : Cell) (cosf sinf : ℚ → ℚ) : Cell :=
  match c.brain.get_best_action c.normalize_sensors with
  | 0 => c
  | 1 => c.turn_left
  | 2 => c.turn_right
  | 3 => c.forward cosf sinf
  | _ => c

/-- Step (1) of `Cell::update`: transition from `Alive` to `Corpse` when the
energy is depleted. -/
def Cell.lifecycleStep (c : Cell) : Cell :=
  if c.state = CellState.Alive ∧ c.energy ≤ 0 then { c with state := CellState.Corpse } else c

/-- Step (2) of `Cell::update`: alive cells age by 0.1 per tick. -/
def Cell.ageStep (c : Cell) : Cell :=
  if c.state = CellState.Alive then { c with age := c.age + 1 / 10 } else c

/-- Step (3) of `Cell::update`: cap the energy at the mass. -/
def Cell.capStep (c : Cell) : Cell :=
  if c.mass < c.energy then { c with energy := c.mass } else c

/-- Step (4) of `Cell::update`: metabolism tax followed by the neural action
for alive cells, decay tax for corpses. -/
def Cell.taxStep (c : Cell) (cosf sinf : ℚ → ℚ) : Cell :=
  if c.state = CellState.Alive then
    Cell.decide_action { c with energy := c.energy - METABOLISM_ENERGY_LOSS } cosf sinf
  else if c.state = CellState.Corpse then
    { c with energy := c.energy - CORPSE_DECAY_RATE }
  else c

/-- First half of `Cell::update`: lifecycle transition, aging, energy cap,
then metabolism plus neural action for alive cells or decay for corpses,
exactly in the sequential order of the Rust method. -/
def Cell.updateEnergy (c : Cell) (cosf sinf : ℚ → ℚ) : Cell :=
  Cell.taxStep (Cell.capStep (Cell.ageStep (Cell.lifecycleStep c))) cosf sinf

/-- Second half of `Cell::update`: mass-based slowdown, velocity
integration, toroidal wrapping, and friction. -/
def Cell.updateMotion (c : Cell) (world_width world_height : ℚ) : Cell :=
  let mass_factor := 200 / c.mass
  let slowdown := max mass_factor (1 / 2)
  let c1 := { c with x := c.x + c.velocity_x * slowdown,
                     y := c.y + c.velocity_y * slowdown,
                     angle := c.angle + c.angle_velocity }
  let c2 := { c1 with x := remEuclid c1.x world_width,
                      y := remEuclid c1.y world_height }
  { c2 with velocity_x := c2.velocity_x * (95 / 100),
            velocity_y := c2.velocity_y * (95 / 100),
            angle_velocity := c2.angle_velocity * (9 / 10) }

/-- `Cell::update`: the energy/lifecycle phase followed by the motion
phase, exactly in the sequential order of the Rust method. -/
def Cell.update (c : Cell) (world_width world_height : ℚ) (cosf sinf : ℚ → ℚ) : Cell :=
  Cell.updateMotion (Cell.updateEnergy c cosf sinf) world_width world_height

/-- The x position integrated by `Cell::update` just before boundary
wrapping is applied (the velocity used is the post-decision velocity). -/
def Cell.preWrapX (c : Cell) (cosf sinf : ℚ → ℚ) : ℚ :=
  let cm := Cell.updateEnergy c cosf sinf
  cm.x + cm.velocity_x * max (200 / cm.mass) (1 / 2)

/-- `Cell::gain_energy`: always add to the lifetime total; store into
`energy` only for cells at or past the growth age threshold. -/
def Cell.gain_energy (c : Cell) (amount : ℚ) : Cell :=
  let c1 := { c with total_energy_accumulated := c.total_energy_accumulated + amount }
  if c1.age < GROWTH_AGE_THRESHOLD then c1
  else { c1 with energy := c1.energy + amount }

/-! ### `world.rs` -/

/-- The engine state read and written by `World::adjust_cell_cap`. -/
structure CapState where
  last_adjustment_time : ℚ
  current_fps : ℚ
  max_cells : ℕ
  deriving DecidableEq, Repr

/-- `World::adjust_cell_cap`: accumulate the last frame time; once the
adjustment interval has elapsed, reset the timer and move the population cap
one step down (only when it exceeds the step) if FPS is below the minimum
target, one step up if FPS is above the maximum target, else leave it. -/
def adjust_cell_cap (s : CapState) (lastFrameTime : ℚ) : CapState :=
  let t := s.last_adjustment_time + lastFrameTime
  if t < ADJUSTMENT_INTERVAL then { s with last_adjustment_time := t }
  else
    let s1 : CapState := { s with last_adjustment_time := 0 }
    if s1.current_fps < TARGET_MIN_FPS then
      if CELL_CAP_STEP < s1.max_cells then { s1 with max_cells := s1.max_cells - CELL_CAP_STEP }
      else s1
    else if TARGET_MAX_FPS < s1.current_fps then
      { s1 with max_cells := s1.max_cells + CELL_CAP_STEP }
    else s1

/-- In-place update of the cell at one index of the agent array, as done by
the transfer-application loop of `World::check_collisions`. -/
def modifyAt (l : List Cell) (i : ℕ) (f : Cell → Cell) : List Cell :=
  match l, i with
  | [], _ => []
  | c :: cs, 0 => f c :: cs
  | c :: cs, n + 1 => c :: modifyAt cs n f

/-- One iteration of the transfer-application loop of
`World::check_collisions`: the alive cell gains `chunk * mult` through
`gain_energy`, then the corpse cell loses the flat `chunk`. -/
def applyTransfer (cells : List Cell) (alive_idx corpse_idx : ℕ) (chunk mult : ℚ) :
    List Cell :=
  let cells1 := modifyAt cells alive_idx (fun c => c.gain_energy (chunk * mult))
  modifyAt cells1 corpse_idx (fun c => { c with energy := c.energy - chunk })

/-- One iteration of the `World::handle_reproduction` loop: the accumulator
carries the already-processed cells and the children spawned so far this
tick. A cell above the energy threshold reproduces unless the projected
population (pre-loop count plus children so far) has reached the cap; the
child is a `spawn_child` copy (abstracted by `spawnChild`, which covers the
randomized traits) whose energy is overwritten with `CHILD_ENERGY_FRAC` of
the parent's energy, while the parent keeps `PARENT_ENERGY_FRAC` of it and
its child counter increments. -/
def reproStep (maxCells currentCount : ℕ) (spawnChild : Cell → Cell)
    (acc : List Cell × List Cell) (cell : Cell) : List Cell × List Cell :=
  if REPRODUCTION_ENERGY_THRESHOLD < cell.energy then
    if maxCells ≤ currentCount + acc.2.length then
      (acc.1 ++ [cell], acc.2)
    else
      let parent : Cell :=
        { cell with energy := cell.energy * PARENT_ENERGY_FRAC,
                    children_count := cell.children_count + 1 }
      let child : Cell :=
        { spawnChild cell with energy := cell.energy * CHILD_ENERGY_FRAC }
      (acc.1 ++ [parent], acc.2 ++ [child])
  else (acc.1 ++ [cell], acc.2)

/-- `World::handle_reproduction`: run the reproduction loop over the agent
array (the pre-loop population count is frozen, as in the Rust code) and
append the newborn children at the end. -/
def handle_reproduction (maxCells : ℕ) (spawnChild : Cell → Cell) (cells : List Cell) :
    List Cell :=
  let s := cells.foldl (reproStep maxCells cells.length spawnChild) ([], [])
  s.1 ++ s.2

/-! ### Helper lemmas about `remEuclid` -/

theorem remEuclid_nonneg (x w : ℚ) (hw : 0 < w) : 0 ≤ remEuclid x w := by
  have h1 : (⌊x / w⌋ : ℚ) ≤ x / w := Int.floor_le _
  have h2 : w * (⌊x / w⌋ : ℚ) ≤ w * (x / w) := mul_le_mul_of_nonneg_left h1 hw.le
  have h3 : w * (x / w) = x := by field_simp
  simp only [remEuclid]
  linarith

theorem remEuclid_lt (x w : ℚ) (hw : 0 < w) : remEuclid x w < w := by
  have h1 : x / w < (⌊x / w⌋ : ℚ) + 1 := Int.lt_floor_add_one _
  have h2 : x < ((⌊x / w⌋ : ℚ) + 1) * w := (div_lt_iff₀ hw).mp h1
  simp only [remEuclid]
  nlinarith [h2]

theorem remEuclid_of_neg (x w : ℚ) (hw : 0 < w) (hx1 : -w ≤ x) (hx2 : x < 0) :
    remEuclid x w = x + w := by
  have hf : ⌊x / w⌋ = -1 := by
    rw [Int.floor_eq_iff]
    constructor
    · push_cast
      rw [le_div_iff₀ hw]
      linarith
    · push_cast
      rw [div_lt_iff₀ hw]
      linarith
  rw [remEuclid, hf]
  push_cast
  ring

/-! ### Helper lemmas about list indexing and in-place update -/

theorem listGetD_append_add {α : Type} (xs ys : List α) (k : ℕ) (d : α) :
    (xs ++ ys).getD (xs.length + k) d = ys.getD k d := by
  induction xs with
  | nil => simp
  | cons a l ih =>
      have h : l.length + 1 + k = (l.length + k) + 1 := by omega
      simp only [List.cons_append, List.length_cons, h, List.getD_cons_succ]
      exact ih

theorem listGetD_append_cons {α : Type} (xs : List α) (y : α) (zs : List α) (d : α) :
    (xs ++ y :: zs).getD xs.length d = y := by
  have h := listGetD_append_add xs (y :: zs) 0 d
  simpa using h

theorem listGetD_append_left {α : Type} (xs ys : List α) (n : ℕ) (d : α)
    (h : n < xs.length) : (xs ++ ys).getD n d = xs.getD n d := by
  induction xs generalizing n with
  | nil => simp at h
  | cons a l ih =>
      cases n with
      | zero => simp
      | succ m =>
          simp only [List.cons_append, List.getD_cons_succ]
          exact ih m (by simpa using h)

theorem modifyAt_length (l : List Cell) (i : ℕ) (f : Cell → Cell) :
    (modifyAt l i f).length = l.length := by
  induction l generalizing i with
  | nil => simp [modifyAt]
  | cons c cs ih =>
      cases i with
      | zero => simp [modifyAt]
      | succ n => simp [modifyAt, ih]

theorem modifyAt_getD_self (l : List Cell) (i : ℕ) (f : Cell → Cell) (d : Cell)
    (h : i < l.length) : (modifyAt l i f).getD i d = f (l.getD i d) := by
  induction l generalizing i with
  | nil => simp at h
  | cons c cs ih =>
      cases i with
      | zero => simp [modifyAt]
      | succ n =>
          simp only [modifyAt, List.getD_cons_succ]
          exact ih n (by simpa using h)

theorem modifyAt_getD_ne (l : List Cell) (i j : ℕ) (f : Cell → Cell) (d : Cell)
    (h : i ≠ j) : (modifyAt l i f).getD j d = l.getD j d := by
  induction l generalizing i j with
  | nil => simp [modifyAt]
  | cons c cs ih =>
      cases i with
      | zero =>
          cases j with
          | zero => exact absurd rfl h
          | succ m => simp [modifyAt]
      | succ n =>
          cases j with
          | zero => simp [modifyAt]
          | succ m =>
              simp only [modifyAt, List.getD_cons_succ]
              exact ih n m (by omega)

/-! ### Facts about the locomotion actions -/

theorem age_cost_multiplier_nonneg (c : Cell) (h : 0 ≤ c.age) :
    1 ≤ c.get_age_cost_multiplier := by
  have h1 : 0 ≤ min (c.age / MAX_AGE_FOR_COST) 1 := by
    apply le_min
    · apply div_nonneg h
      norm_num [MAX_AGE_FOR_COST]
    · norm_num
  simp only [Cell.get_age_cost_multiplier, MAX_AGE_COST_MULTIPLIER]
  nlinarith [h1]

theorem turnCost_pos (c : Cell) (h : 0 ≤ c.age) : 0 < c.turnCost := by
  have h1 := age_cost_multiplier_nonneg c h
  simp only [Cell.turnCost, TURN_ENERGY_COST]
  nlinarith

theorem forwardCost_pos (c : Cell) (h : 0 ≤ c.age) : 0 < c.forwardCost := by
  have h1 := age_cost_multiplier_nonneg c h
  simp only [Cell.forwardCost, FORWARD_ENERGY_COST]
  nlinarith

theorem turn_left_energy_le (c : Cell) (h : 0 ≤ c.age) :
    (c.turn_left).energy ≤ c.energy := by
  have h1 := turnCost_pos c h
  simp only [Cell.turn_left]
  split <;> simp <;> linarith

theorem turn_right_energy_le (c : Cell) (h : 0 ≤ c.age) :
    (c.turn_right).energy ≤ c.energy := by
  have h1 := turnCost_pos c h
  simp only [Cell.turn_right]
  split <;> simp <;> linarith

theorem forward_energy_le (c : Cell) (cosf sinf : ℚ → ℚ) (h : 0 ≤ c.age) :
    (c.forward cosf sinf).energy ≤ c.energy := by
  have h1 := forwardCost_pos c h
  simp only [Cell.forward]
  split <;> simp <;> linarith

theorem turn_left_frame (c : Cell) :
    (c.turn_left).state = c.state ∧ (c.turn_left).mass = c.mass ∧
      (c.turn_left).age = c.age := by
  simp only [Cell.turn_left]
  split <;> simp

theorem turn_right_frame (c : Cell) :
    (c.turn_right).state = c.state ∧ (c.turn_right).mass = c.mass ∧
      (c.turn_right).age = c.age := by
  simp only [Cell.turn_right]
  split <;> simp

theorem forward_frame (c : Cell) (cosf sinf : ℚ → ℚ) :
    (c.forward cosf sinf).state = c.state ∧ (c.forward cosf sinf).mass = c.mass ∧
      (c.forward cosf sinf).age = c.age := by
  simp only [Cell.forward]
  split <;> simp

theorem decide_action_cases (c : Cell) (cosf sinf : ℚ → ℚ) :
    c.decide_action cosf sinf = c ∨ c.decide_action cosf sinf = c.turn_left ∨
      c.decide_action cosf sinf = c.turn_right ∨
      c.decide_action cosf sinf = c.forward cosf sinf := by
  simp only [Cell.decide_action]
  rcases ha : c.brain.get_best_action c.normalize_sensors with _ | _ | _ | _ | n
  · exact Or.inl rfl
  · exact Or.inr (Or.inl rfl)
  · exact Or.inr (Or.inr (Or.inl rfl))
  · exact Or.inr (Or.inr (Or.inr rfl))
  · exact Or.inl rfl

theorem decide_action_energy_le (c : Cell) (cosf sinf : ℚ → ℚ) (h : 0 ≤ c.age) :
    (c.decide_action cosf sinf).energy ≤ c.energy := by
  rcases decide_action_cases c cosf sinf with hc | hc | hc | hc <;> rw [hc]
  · exact turn_left_energy_le c h
  · exact turn_right_energy_le c h
  · exact forward_energy_le c cosf sinf h

theorem decide_action_frame (c : Cell) (cosf sinf : ℚ → ℚ) :
    (c.decide_action cosf sinf).state = c.state ∧
      (c.decide_action cosf sinf).mass = c.mass ∧
      (c.decide_action cosf sinf).age = c.age := by
  rcases decide_action_cases c cosf sinf with hc | hc | hc | hc <;> rw [hc]
  · exact ⟨rfl, rfl, rfl⟩
  · exact turn_left_frame c
  · exact turn_right_frame c
  · exact forward_frame c cosf sinf

/-! ### Facts about the two phases of `Cell::update` -/

theorem lifecycleStep_frame (c : Cell) :
    (c.lifecycleStep).energy = c.energy ∧ (c.lifecycleStep).mass = c.mass ∧
      (c.lifecycleStep).age = c.age := by
  simp only [Cell.lifecycleStep]
  split <;> simp

theorem lifecycleStep_state (c : Cell) :
    (c.lifecycleStep).state =
      if c.state = CellState.Alive ∧ c.energy ≤ 0 then CellState.Corpse else c.state := by
  simp only [Cell.lifecycleStep]
  split <;> simp

theorem ageStep_frame (c : Cell) :
    (c.ageStep).energy = c.energy ∧ (c.ageStep).mass = c.mass ∧
      (c.ageStep).state = c.state := by
  simp only [Cell.ageStep]
  split <;> simp

theorem ageStep_age_nonneg (c : Cell) (h : 0 ≤ c.age) : 0 ≤ (c.ageStep).age := by
  simp only [Cell.ageStep]
  split
  · simp only
    linarith
  · exact h

theorem capStep_energy (c : Cell) :
    (c.capStep).energy ≤ c.energy ∧ (c.capStep).energy ≤ c.mass := by
  simp only [Cell.capStep]
  split
  · rename_i hlt
    exact ⟨by simp only; linarith, by simp only; exact le_refl _⟩
  · rename_i hge
    exact ⟨le_refl _, by linarith [not_lt.mp hge]⟩

theorem capStep_frame (c : Cell) :
    (c.capStep).mass = c.mass ∧ (c.capStep).state = c.state ∧ (c.capStep).age = c.age := by
  simp only [Cell.capStep]
  split <;> simp

theorem taxStep_energy (c : Cell) (cosf sinf : ℚ → ℚ) (h : 0 ≤ c.age) :
    (c.taxStep cosf sinf).energy ≤ c.energy - CORPSE_DECAY_RATE := by
  simp only [Cell.taxStep]
  split_ifs with h1 h2
  · have hd := decide_action_energy_le { c with energy := c.energy - METABOLISM_ENERGY_LOSS }
      cosf sinf (by simpa using h)
    simp only at hd
    norm_num [METABOLISM_ENERGY_LOSS, CORPSE_DECAY_RATE] at hd ⊢
    linarith
  · simp
  · cases hs : c.state
    · exact absurd hs h1
    · exact absurd hs h2

theorem taxStep_state (c : Cell) (cosf sinf : ℚ → ℚ) :
    (c.taxStep cosf sinf).state = c.state := by
  simp only [Cell.taxStep]
  split_ifs with h1 h2
  · rw [(decide_action_frame _ cosf sinf).1]
  · rfl
  · rfl

theorem taxStep_mass (c : Cell) (cosf sinf : ℚ → ℚ) :
    (c.taxStep cosf sinf).mass = c.mass := by
  simp only [Cell.taxStep]
  split_ifs with h1 h2
  · rw [(decide_action_frame _ cosf sinf).2.1]
  · rfl
  · rfl

theorem updateEnergy_energy_le (c : Cell) (cosf sinf : ℚ → ℚ) (h : 0 ≤ c.age) :
    (c.updateEnergy cosf sinf).energy ≤ c.energy - CORPSE_DECAY_RATE ∧
      (c.updateEnergy cosf sinf).energy ≤ c.mass - CORPSE_DECAY_RATE := by
  have h0 := lifecycleStep_frame c
  have h1 := ageStep_frame c.lifecycleStep
  have h2 := capStep_energy (c.lifecycleStep.ageStep)
  have h3 := capStep_frame (c.lifecycleStep.ageStep)
  have hage : 0 ≤ (c.lifecycleStep.ageStep.capStep).age := by
    rw [h3.2.2]
    exact ageStep_age_nonneg c.lifecycleStep (by rw [h0.2.2]; exact h)
  have h4 := taxStep_energy (c.lifecycleStep.ageStep.capStep) cosf sinf hage
  have hmass : (c.lifecycleStep.ageStep.capStep).mass = c.mass := by
    rw [h3.1, h1.2.1, h0.2.1]
  constructor
  · simp only [Cell.updateEnergy]
    have := h2.1
    rw [h1.1, h0.1] at this
    linarith
  · simp only [Cell.updateEnergy]
    have := h2.2
    rw [h1.2.1, h0.2.1] at this
    linarith

theorem updateEnergy_mass (c : Cell) (cosf sinf : ℚ → ℚ) :
    (c.updateEnergy cosf sinf).mass = c.mass := by
  simp only [Cell.updateEnergy]
  rw [taxStep_mass, (capStep_frame _).1, (ageStep_frame _).2.1, (lifecycleStep_frame _).2.1]

theorem updateEnergy_state (c : Cell) (cosf sinf : ℚ → ℚ) :
    (c.updateEnergy cosf sinf).state =
      if c.state = CellState.Alive ∧ c.energy ≤ 0 then CellState.Corpse else c.state := by
  simp only [Cell.updateEnergy]
  rw [taxStep_state, (capStep_frame _).2.1, (ageStep_frame _).2.2, lifecycleStep_state]

theorem updateMotion_frame (c : Cell) (w h : ℚ) :
    (c.updateMotion w h).energy = c.energy ∧ (c.updateMotion w h).state = c.state ∧
      (c.updateMotion w h).mass = c.mass ∧ (c.updateMotion w h).age = c.age := by
  simp [Cell.updateMotion]

theorem updateMotion_x (c : Cell) (w h : ℚ) :
    (c.updateMotion w h).x = remEuclid (c.x + c.velocity_x * max (200 / c.mass) (1 / 2)) w := by
  simp [Cell.updateMotion]

theorem updateMotion_y (c : Cell) (w h : ℚ) :
    (c.updateMotion w h).y = remEuclid (c.y + c.velocity_y * max (200 / c.mass) (1 / 2)) h := by
  simp [Cell.updateMotion]

/-! ### Facts about `get_best_action` -/

def bestIndexFrom : ℕ → Option (ℕ × ℚ) → List ℚ → Option (ℕ × ℚ)
  | _, acc, [] => acc
  | k, acc, v :: vs => bestIndexFrom (k + 1) (maxByStep acc (k, v)) vs

theorem enumFrom_foldl_maxByStep (l : List ℚ) : ∀ (k : ℕ) (acc : Option (ℕ × ℚ)),
    (List.enumFrom k l).foldl maxByStep acc = bestIndexFrom k acc l := by
  induction l with
  | nil => intro k acc; rfl
  | cons v vs ih =>
      intro k acc
      simp only [List.enumFrom, List.foldl_cons, bestIndexFrom]
      exact ih (k + 1) (maxByStep acc (k, v))

theorem bestIndexFrom_spec : ∀ (l : List ℚ) (k : ℕ) (a : ℕ × ℚ), a.1 < k →
    ∃ m : ℕ × ℚ, bestIndexFrom k (some a) l = some m ∧
      m.1 < k + l.length ∧
      a.2 ≤ m.2 ∧
      (m = a ∨ ∃ j, j < l.length ∧ m.1 = k + j ∧ l.getD j 0 = m.2) ∧
      (∀ j, j < l.length → l.getD j 0 ≤ m.2) ∧
      (∀ j, j < l.length → m.1 < k + j → l.getD j 0 < m.2) := by
  intro l
  induction l with
  | nil =>
      intro k a ha
      refine ⟨a, rfl, by simpa using ha, le_refl _, Or.inl rfl, ?_, ?_⟩
      · intro j hj
        simp at hj
      · intro j hj
        simp at hj
  | cons v vs ih =>
      intro k a ha
      by_cases hv : v < a.2
      · have hstep : bestIndexFrom k (some a) (v :: vs) = bestIndexFrom (k + 1) (some a) vs := by
          simp [bestIndexFrom, maxByStep, hv]
        obtain ⟨m, hm, hlt, hle, hmem, hub, hstrict⟩ := ih (k + 1) a (by omega)
        refine ⟨m, by rw [hstep]; exact hm, by simp only [List.length_cons]; omega, hle, ?_, ?_, ?_⟩
        · rcases hmem with h | ⟨j, hj, hj1, hj2⟩
          · exact Or.inl h
          · exact Or.inr ⟨j + 1, by simpa using hj, by omega, by simpa using hj2⟩
        · intro j hj
          cases j with
          | zero => simpa using le_trans hv.le hle
          | succ i => simpa using hub i (by simpa using hj)
        · intro j hj hsm
          cases j with
          | zero =>
              rcases hmem with h | ⟨i, hi, hi1, _⟩
              · subst h
                simpa using hv
              · omega
          | succ i => simpa using hstrict i (by simpa using hj) (by omega)
      · have hstep : bestIndexFrom k (some a) (v :: vs) =
            bestIndexFrom (k + 1) (some (k, v)) vs := by
          simp [bestIndexFrom, maxByStep, hv]
        obtain ⟨m, hm, hlt, hle, hmem, hub, hstrict⟩ := ih (k + 1) (k, v) (by omega)
        have hk : k ≤ m.1 := by
          rcases hmem with h | ⟨i, hi, hi1, _⟩
          · rw [h]
          · omega
        refine ⟨m, by rw [hstep]; exact hm, by simp only [List.length_cons]; omega,
          le_trans (not_lt.mp hv) hle, ?_, ?_, ?_⟩
        · rcases hmem with h | ⟨i, hi, hi1, hi2⟩
          · exact Or.inr ⟨0, by simp, by simp [h], by rw [h]; simp⟩
          · exact Or.inr ⟨i + 1, by simpa using hi, by omega, by simpa using hi2⟩
        · intro j hj
          cases j with
          | zero => simpa using hle
          | succ i => simpa using hub i (by simpa using hj)
        · intro j hj hsm
          cases j with
          | zero => omega
          | succ i => simpa using hstrict i (by simpa using hj) (by omega)

theorem forward_length (nn : NeuralNetwork) (inputs : List ℚ) :
    (nn.forward inputs).length = nn.output_size := by
  simp [NeuralNetwork.forward]

theorem get_best_action_spec (nn : NeuralNetwork) (inputs : List ℚ)
    (hout : 0 < nn.output_size) :
    nn.get_best_action inputs < (nn.forward inputs).length ∧
    (∀ j, j < (nn.forward inputs).length →
      (nn.forward inputs).getD j 0 ≤ (nn.forward inputs).getD (nn.get_best_action inputs) 0) ∧
    (∀ j, nn.get_best_action inputs < j → j < (nn.forward inputs).length →
      (nn.forward inputs).getD j 0 < (nn.forward inputs).getD (nn.get_best_action inputs) 0) := by
  have hlen := forward_length nn inputs
  rcases hO : nn.forward inputs with _ | ⟨v, vs⟩
  · rw [hO] at hlen
    simp at hlen
    omega
  · obtain ⟨m, hm, hlt, hle, hmem, hub, hstrict⟩ := bestIndexFrom_spec vs 1 (0, v) (by norm_num)
    have hga : nn.get_best_action inputs = m.1 := by
      simp only [NeuralNetwork.get_best_action, hO, List.enum_cons, List.foldl_cons]
      have h0 : maxByStep none (0, v) = some (0, v) := rfl
      rw [h0, enumFrom_foldl_maxByStep, hm]
    have hval : (v :: vs).getD m.1 0 = m.2 := by
      rcases hmem with h | ⟨j, hj, hj1, hj2⟩
      · rw [h]
        simp
      · have h1j : 1 + j = j + 1 := by omega
        rw [hj1, h1j, List.getD_cons_succ, hj2]
    rw [hga, hval]
    refine ⟨by simp only [List.length_cons]; omega, ?_, ?_⟩
    · intro j hj
      cases j with
      | zero => simpa using hle
      | succ i =>
          rw [List.getD_cons_succ]
          exact hub i (by simpa using hj)
    · intro j hjm hj
      cases j with
      | zero => omega
      | succ i =>
          rw [List.getD_cons_succ]
          exact hstrict i (by simpa using hj) (by omega)

/-! ### Facts about `handle_reproduction` -/

theorem listGetD_append_cons2 {α : Type} (xs : List α) (y : α) (zs : List α) (d : α)
    (n : ℕ) (h : n = xs.length) : (xs ++ y :: zs).getD n d = y := by
  subst h
  exact listGetD_append_cons xs y zs d

theorem listGetD_append_add2 {α : Type} (xs ys : List α) (k : ℕ) (d : α)
    (n : ℕ) (h : n = xs.length + k) : (xs ++ ys).getD n d = ys.getD k d := by
  subst h
  exact listGetD_append_add xs ys k d

theorem reproStep_shape (M C : ℕ) (f : Cell → Cell) (acc : List Cell × List Cell)
    (cell : Cell) :
    ∃ u vl, reproStep M C f acc cell = (acc.1 ++ [u], acc.2 ++ vl) := by
  simp only [reproStep]
  split_ifs
  · exact ⟨cell, [], by simp⟩
  · exact ⟨_, [_], rfl⟩
  · exact ⟨cell, [], by simp⟩

theorem reproStep_done_length (M C : ℕ) (f : Cell → Cell) :
    ∀ (l : List Cell) (acc : List Cell × List Cell),
      ((l.foldl (reproStep M C f) acc).1).length = acc.1.length + l.length := by
  intro l
  induction l with
  | nil =>
      intro acc
      simp
  | cons c cs ih =>
      intro acc
      rw [List.foldl_cons, ih]
      obtain ⟨u, vl, hshape⟩ := reproStep_shape M C f acc c
      rw [hshape]
      simp only [List.length_append, List.length_cons, List.length_singleton, List.length_nil]
      omega

theorem reproStep_prefix (M C : ℕ) (f : Cell → Cell) :
    ∀ (l : List Cell) (d n : List Cell),
      ∃ d2 n2, l.foldl (reproStep M C f) (d, n) = (d ++ d2, n ++ n2) := by
  intro l
  induction l with
  | nil =>
      intro d n
      exact ⟨[], [], by simp⟩
  | cons c cs ih =>
      intro d n
      obtain ⟨u, vl, hshape⟩ := reproStep_shape M C f (d, n) c
      rw [List.foldl_cons, hshape]
      obtain ⟨d2, n2, hh⟩ := ih (d ++ [u]) (n ++ vl)
      exact ⟨[u] ++ d2, vl ++ n2, by simpa [List.append_assoc] using hh⟩

/-- C6: in `handle_reproduction`, every Alive cell whose energy exceeds the
reproduction threshold and whose projected population (pre-loop count plus
children already spawned this tick) is under the cap produces exactly one
child: the cell at its index afterwards keeps a third of the pre-split
energy with its child counter incremented, and the child, appended after
the original population, holds two thirds of the pre-split energy. -/
theorem handle_reproduction_spec (maxCells : ℕ) (f : Cell → Cell) (cells : List Cell)
    (idx : ℕ) (d : Cell) (hidx : idx < cells.length)
    (halive : (cells.getD idx d).state = CellState.Alive)
    (hthr : REPRODUCTION_ENERGY_THRESHOLD < (cells.getD idx d).energy)
    (hcap : cells.length +
        (((cells.take idx).foldl (reproStep maxCells cells.length f) ([], [])).2).length <
        maxCells) :
    (handle_reproduction maxCells f cells).getD idx d =
        { cells.getD idx d with
            energy := (cells.getD idx d).energy * PARENT_ENERGY_FRAC,
            children_count := (cells.getD idx d).children_count + 1 } ∧
    (handle_reproduction maxCells f cells).getD
        (cells.length +
          (((cells.take idx).foldl (reproStep maxCells cells.length f) ([], [])).2).length) d =
        { f (cells.getD idx d) with
            energy := (cells.getD idx d).energy * CHILD_ENERGY_FRAC } ∧
    (((cells.take (idx + 1)).foldl (reproStep maxCells cells.length f) ([], [])).2).length =
      (((cells.take idx).foldl (reproStep maxCells cells.length f) ([], [])).2).length + 1 := by
  have hc : cells.getD idx d = cells[idx] := List.getD_eq_getElem cells d hidx
  have hdecomp : cells = cells.take idx ++ cells[idx] :: cells.drop (idx + 1) := by
    conv_lhs => rw [← List.take_append_drop idx cells]
    rw [List.drop_eq_getElem_cons hidx]
  set R := reproStep maxCells cells.length f with hR
  have hs1len : (((cells.take idx).foldl R ([], [])).1).length = idx := by
    rw [hR, reproStep_done_length]
    simp only [List.length_nil, List.length_take]
    omega
  obtain ⟨s1d, s1n, hs1⟩ :
      ∃ s1d s1n, (cells.take idx).foldl R ([], []) = (s1d, s1n) := ⟨_, _, rfl⟩
  have hs1dlen : s1d.length = idx := by rw [hs1] at hs1len; exact hs1len
  have hstep : R (s1d, s1n) cells[idx] =
      (s1d ++ [{ cells[idx] with
                   energy := cells[idx].energy * PARENT_ENERGY_FRAC,
                   children_count := cells[idx].children_count + 1 }],
       s1n ++ [{ f cells[idx] with energy := cells[idx].energy * CHILD_ENERGY_FRAC }]) := by
    rw [hc] at hthr
    have hcap2 : ¬ (maxCells ≤ cells.length + s1n.length) := by
      rw [hs1] at hcap
      simp only at hcap
      omega
    rw [hR]
    simp only [reproStep, if_pos hthr, if_neg hcap2]
  obtain ⟨d2, n2, hrest⟩ := reproStep_prefix maxCells cells.length f (cells.drop (idx + 1))
    (s1d ++ [{ cells[idx] with
                 energy := cells[idx].energy * PARENT_ENERGY_FRAC,
                 children_count := cells[idx].children_count + 1 }])
    (s1n ++ [{ f cells[idx] with energy := cells[idx].energy * CHILD_ENERGY_FRAC }])
  rw [← hR] at hrest
  have hfold : cells.foldl R ([], []) =
      (s1d ++ [{ cells[idx] with
                   energy := cells[idx].energy * PARENT_ENERGY_FRAC,
                   children_count := cells[idx].children_count + 1 }] ++ d2,
       s1n ++ [{ f cells[idx] with energy := cells[idx].energy * CHILD_ENERGY_FRAC }] ++ n2) := by
    conv_lhs => rw [hdecomp]
    rw [List.foldl_append, List.foldl_cons, hs1, hstep, hrest]
  have htot : ((cells.foldl R ([], [])).1).length = cells.length := by
    rw [hR, reproStep_done_length]
    simp
  have hdonelen : (s1d ++ [{ cells[idx] with
        energy := cells[idx].energy * PARENT_ENERGY_FRAC,
        children_count := cells[idx].children_count + 1 }] ++ d2).length = cells.length := by
    rw [hfold] at htot
    simpa using htot
  refine ⟨?_, ?_, ?_⟩
  · rw [handle_reproduction, ← hR, hfold, hc]
    simp only [List.append_assoc, List.cons_append, List.singleton_append]
    exact listGetD_append_cons2 s1d _ _ d idx hs1dlen.symm
  · rw [handle_reproduction, ← hR, hfold, hc, hs1]
    simp only
    refine (listGetD_append_add2 _ _ s1n.length d _ (by rw [hdonelen])).trans ?_
    rw [List.append_assoc]
    exact listGetD_append_cons2 s1n _ _ d _ rfl
  · rw [List.take_succ, List.getElem?_eq_getElem hidx]
    simp only [Option.toList_some]
    rw [List.foldl_append, hs1]
    simp only [List.foldl_cons, List.foldl_nil, hstep]
    simp

/-! ### Facts about `NeuralNetwork::mutate` -/

theorem mutateVal_zero (g : ℕ → ℚ) (k : ℕ) (v : ℚ) (hg : 0 ≤ g k) :
    mutateVal 0 g k v = (v, k + 1) := by
  simp [mutateVal, not_lt.mpr hg]

theorem mutateList_zero (g : ℕ → ℚ) (hg : ∀ n, 0 ≤ g n) :
    ∀ (l : List ℚ) (k : ℕ), mutateList 0 g l k = (l, k + l.length) := by
  intro l
  induction l with
  | nil => intro k; simp [mutateList]
  | cons v vs ih =>
      intro k
      simp only [mutateList, mutateVal_zero g k v (hg k), ih (k + 1), List.length_cons]
      rw [Prod.mk.injEq]
      exact ⟨rfl, by omega⟩

theorem mutateGrid_zero (g : ℕ → ℚ) (hg : ∀ n, 0 ≤ g n) :
    ∀ (rows : List (List ℚ)) (k : ℕ), ∃ k2, mutateGrid 0 g rows k = (rows, k2) := by
  intro rows
  induction rows with
  | nil => intro k; exact ⟨k, rfl⟩
  | cons row rest ih =>
      intro k
      obtain ⟨k2, hk2⟩ := ih (k + row.length)
      refine ⟨k2, ?_⟩
      simp only [mutateGrid, mutateList_zero g hg row k, hk2]

/-- C7: mutating a network with rate 0 is the identity: no weight or bias
changes, whatever the random samples are (the probability draws from
`gen_range(0.0, 1.0)` are nonnegative, so they are never below a zero
rate). -/
theorem mutate_zero_id (nn : NeuralNetwork) (g : ℕ → ℚ) (hg : ∀ n, 0 ≤ g n) :
    nn.mutate 0 g = nn := by
  have hr : clampQ 0 0 1 = 0 := by norm_num [clampQ]
  obtain ⟨k1, hk1⟩ := mutateGrid_zero g hg nn.weights_ih 0
  obtain ⟨k3, hk3⟩ := mutateGrid_zero g hg nn.weights_ho (k1 + nn.bias_h.length)
  simp only [NeuralNetwork.mutate, hr, hk1, mutateList_zero g hg, hk3]

/-! ### Concrete fixtures used by the witnesses and counterexamples -/

/-- A tiny all-zero network with two outputs (the sizes are consistent with
its weight lists; the program never builds hidden layers this small, but
`get_best_action` is defined for every network). -/
def zeroBrain : NeuralNetwork :=
  { weights_ih := [[0], [0]], bias_h := [0, 0],
    weights_ho := [[0, 0], [0, 0]], bias_o := [0, 0],
    input_size := 1, hidden_size := 2, output_size := 2 }

/-- A concrete corpse cell: zero energy, drifting left fast enough to cross
the world boundary in one tick. -/
def corpseCell : Cell :=
  { x := 5, y := 7, velocity_x := -20, velocity_y := 0, energy := 0,
    angle := 0, angle_velocity := 0, state := CellState.Corpse, age := 25,
    total_energy_accumulated := 100, children_count := 0, generation := 0,
    nearest_cells := [], brain := zeroBrain,
    color := ⟨1, 0, 0, 1⟩, radius := 10, move_probability := 1 / 10,
    turn_probability := 1 / 10, speed := 2, turn_rate := 1 / 10,
    energy_chunk_size := 50, species_multiplier := 1, mass := 200 }

/-- A concrete alive adult cell with plenty of energy. -/
def richCell : Cell :=
  { x := 50, y := 40, velocity_x := 0, velocity_y := 0, energy := 150,
    angle := 0, angle_velocity := 0, state := CellState.Alive, age := 25,
    total_energy_accumulated := 150, children_count := 0, generation := 0,
    nearest_cells := [], brain := zeroBrain,
    color := ⟨0, 1, 0, 1⟩, radius := 10, move_probability := 1 / 10,
    turn_probability := 1 / 10, speed := 2, turn_rate := 1 / 10,
    energy_chunk_size := 50, species_multiplier := 3 / 2, mass := 200 }

/-- A concrete alive newborn cell with no energy at all. -/
def brokeCell : Cell :=
  { x := 1, y := 1, velocity_x := 0, velocity_y := 0, energy := 0,
    angle := 0, angle_velocity := 0, state := CellState.Alive, age := 0,
    total_energy_accumulated := 0, children_count := 0, generation := 0,
    nearest_cells := [], brain := zeroBrain,
    color := ⟨0, 0, 1, 1⟩, radius := 8, move_probability := 1 / 10,
    turn_probability := 1 / 10, speed := 2, turn_rate := 1 / 10,
    energy_chunk_size := 50, species_multiplier := 1, mass := 200 }

/-- A concrete juvenile alive cell (age below the growth threshold). -/
def youngCell : Cell :=
  { x := 60, y := 20, velocity_x := 0, velocity_y := 0, energy := 40,
    angle := 0, angle_velocity := 0, state := CellState.Alive, age := 5,
    total_energy_accumulated := 40, children_count := 0, generation := 1,
    nearest_cells := [], brain := zeroBrain,
    color := ⟨1, 1, 0, 1⟩, radius := 7, move_probability := 1 / 10,
    turn_probability := 1 / 10, speed := 2, turn_rate := 1 / 10,
    energy_chunk_size := 48, species_multiplier := 2, mass := 190 }

/-! ### Claims C1, C9, C10, C5 -/

/-- C1 (amended): for every cell with nonnegative age (an invariant of all
cells the program creates) and any world dimensions, after `Cell::update`
the energy never exceeds the mass. The lower bound of the claim fails, see
the counterexample: update taxes metabolism and corpse decay after capping,
so the energy can become negative. -/
theorem update_energy_le_mass (c : Cell) (w h : ℚ) (cosf sinf : ℚ → ℚ)
    (hage : 0 ≤ c.age) : (c.update w h cosf sinf).energy ≤ c.mass := by
  have h1 := updateEnergy_energy_le c cosf sinf hage
  have h2 := updateMotion_frame (c.updateEnergy cosf sinf) w h
  have h3 : (0:ℚ) < CORPSE_DECAY_RATE := by norm_num [CORPSE_DECAY_RATE]
  simp only [Cell.update]
  rw [h2.1]
  linarith [h1.2]

/-- C1 (counterexample): a corpse cell with zero energy has strictly
negative energy right after `Cell::update`, so `0 ≤ energy` does not hold
after every update. -/
theorem update_energy_nonneg_cex :
    (corpseCell.update 100 80 (fun _ => 1) (fun _ => 0)).energy < 0 := by
  simp +decide [Cell.update, Cell.updateEnergy, Cell.lifecycleStep, Cell.ageStep,
    Cell.capStep, Cell.taxStep, Cell.updateMotion, corpseCell, CORPSE_DECAY_RATE, zeroBrain]

/-- Witness for C1 at a concrete alive cell. -/
theorem update_energy_le_mass_witness :
    (0:ℚ) ≤ richCell.age ∧
      (richCell.update 100 80 (fun _ => 1) (fun _ => 0)).energy ≤ richCell.mass :=
  ⟨by norm_num [richCell],
   update_energy_le_mass richCell 100 80 (fun _ => 1) (fun _ => 0) (by norm_num [richCell])⟩

/-- C9: `Cell::update` alone never increases the stored energy, for any
cell with nonnegative age and any world dimensions. -/
theorem update_energy_monotone (c : Cell) (w h : ℚ) (cosf sinf : ℚ → ℚ)
    (hage : 0 ≤ c.age) : (c.update w h cosf sinf).energy ≤ c.energy := by
  have h1 := updateEnergy_energy_le c cosf sinf hage
  have h2 := updateMotion_frame (c.updateEnergy cosf sinf) w h
  have h3 : (0:ℚ) < CORPSE_DECAY_RATE := by norm_num [CORPSE_DECAY_RATE]
  simp only [Cell.update]
  rw [h2.1]
  linarith [h1.1]

/-- Witness for C9 at a concrete juvenile cell. -/
theorem update_energy_monotone_witness :
    (0:ℚ) ≤ youngCell.age ∧
      (youngCell.update 100 80 (fun _ => 1) (fun _ => 0)).energy ≤ youngCell.energy :=
  ⟨by norm_num [youngCell],
   update_energy_monotone youngCell 100 80 (fun _ => 1) (fun _ => 0) (by norm_num [youngCell])⟩

/-- C10: `Cell::update` never resurrects a corpse, and the only lifecycle
transition it performs is `Alive` to `Corpse` when the energy is
nonpositive. -/
theorem update_never_resurrects (c : Cell) (w h : ℚ) (cosf sinf : ℚ → ℚ) :
    (c.state = CellState.Corpse → (c.update w h cosf sinf).state = CellState.Corpse) ∧
    ((c.update w h cosf sinf).state ≠ c.state →
      c.state = CellState.Alive ∧ c.energy ≤ 0 ∧
        (c.update w h cosf sinf).state = CellState.Corpse) := by
  have hs : (c.update w h cosf sinf).state =
      if c.state = CellState.Alive ∧ c.energy ≤ 0 then CellState.Corpse else c.state := by
    simp only [Cell.update]
    rw [(updateMotion_frame _ w h).2.1, updateEnergy_state]
  constructor
  · intro hc
    rw [hs, hc]
    simp
  · intro hne
    rw [hs] at hne ⊢
    by_cases hca : c.state = CellState.Alive ∧ c.energy ≤ 0
    · rw [if_pos hca]
      exact ⟨hca.1, hca.2, rfl⟩
    · rw [if_neg hca] at hne
      exact absurd rfl hne

/-- Witness for C10 at a concrete corpse cell. -/
theorem update_never_resurrects_witness :
    corpseCell.state = CellState.Corpse ∧
      (corpseCell.update 100 80 (fun _ => 1) (fun _ => 0)).state = CellState.Corpse :=
  ⟨rfl, (update_never_resurrects corpseCell 100 80 (fun _ => 1) (fun _ => 0)).1 rfl⟩

/-- C5: after `Cell::update` with positive world dimensions the position is
wrapped into `[0, world_width) x [0, world_height)`, and an x that
integrated to a negative value no lower than `-world_width` is wrapped to
`x + world_width`. -/
theorem update_position_wrapped (c : Cell) (w h : ℚ) (cosf sinf : ℚ → ℚ)
    (hw : 0 < w) (hh : 0 < h) :
    0 ≤ (c.update w h cosf sinf).x ∧ (c.update w h cosf sinf).x < w ∧
    0 ≤ (c.update w h cosf sinf).y ∧ (c.update w h cosf sinf).y < h ∧
    (-w ≤ c.preWrapX cosf sinf → c.preWrapX cosf sinf < 0 →
      (c.update w h cosf sinf).x = c.preWrapX cosf sinf + w) := by
  have hx : (c.update w h cosf sinf).x = remEuclid (c.preWrapX cosf sinf) w := by
    simp only [Cell.update, Cell.preWrapX]
    rw [updateMotion_x]
  have hy : (c.update w h cosf sinf).y =
      remEuclid ((c.updateEnergy cosf sinf).y +
        (c.updateEnergy cosf sinf).velocity_y *
          max (200 / (c.updateEnergy cosf sinf).mass) (1 / 2)) h := by
    simp only [Cell.update]
    rw [updateMotion_y]
  refine ⟨?_, ?_, ?_, ?_, ?_⟩
  · rw [hx]
    exact remEuclid_nonneg _ w hw
  · rw [hx]
    exact remEuclid_lt _ w hw
  · rw [hy]
    exact remEuclid_nonneg _ h hh
  · rw [hy]
    exact remEuclid_lt _ h hh
  · intro hx1 hx2
    rw [hx]
    exact remEuclid_of_neg _ w hw hx1 hx2

/-- Witness for C5: the concrete corpse cell integrates to x = -15 and is
wrapped to 85 = -15 + 100. -/
theorem update_position_wrapped_witness :
    corpseCell.preWrapX (fun _ => 1) (fun _ => 0) < 0 ∧
    (corpseCell.update 100 80 (fun _ => 1) (fun _ => 0)).x =
      corpseCell.preWrapX (fun _ => 1) (fun _ => 0) + 100 := by
  have hpre : corpseCell.preWrapX (fun _ => 1) (fun _ => 0) = -15 := by
    simp +decide [Cell.preWrapX, Cell.updateEnergy, Cell.lifecycleStep, Cell.ageStep,
      Cell.capStep, Cell.taxStep, corpseCell, CORPSE_DECAY_RATE, zeroBrain]
    norm_num
  refine ⟨by rw [hpre]; norm_num, ?_⟩
  exact (update_position_wrapped corpseCell 100 80 (fun _ => 1) (fun _ => 0)
    (by norm_num) (by norm_num)).2.2.2.2 (by rw [hpre]; norm_num) (by rw [hpre]; norm_num)

/-! ### Claims C2, C3, C4, C8 and remaining witnesses -/

/-- C2 (amended): for every network and input vector of the declared input
length with at least one output, `get_best_action` returns an index of a
maximal forward-pass output, and on ties it returns the last (highest) such
index: every output after the returned index is strictly smaller than the
returned output. (The claim's first-max tie-break is refuted by the
counterexample: Rust `max_by` keeps the last maximum.) -/
theorem get_best_action_last_argmax (nn : NeuralNetwork) (inputs : List ℚ)
    (hlen : inputs.length = nn.input_size) (hout : 0 < nn.output_size) :
    nn.get_best_action inputs < (nn.forward inputs).length ∧
    (∀ j, j < (nn.forward inputs).length →
      (nn.forward inputs).getD j 0 ≤ (nn.forward inputs).getD (nn.get_best_action inputs) 0) ∧
    (∀ j, nn.get_best_action inputs < j → j < (nn.forward inputs).length →
      (nn.forward inputs).getD j 0 < (nn.forward inputs).getD (nn.get_best_action inputs) 0) :=
  get_best_action_spec nn inputs hout

/-- C2 (counterexample): on the all-zero network both outputs tie at 0, and
`get_best_action` returns index 1, not the first maximal index 0. -/
theorem get_best_action_first_max_cex :
    (zeroBrain.forward [0]).getD 0 0 = (zeroBrain.forward [0]).getD 1 0 ∧
    zeroBrain.get_best_action [0] = 1 := by
  constructor <;>
    simp +decide [NeuralNetwork.get_best_action, NeuralNetwork.forward, zeroBrain,
      maxByStep, relu, List.range_succ, List.enum, List.enumFrom]

/-- Witness for C2 on the all-zero network. -/
theorem get_best_action_last_argmax_witness :
    ([(0:ℚ)] : List ℚ).length = zeroBrain.input_size ∧ 0 < zeroBrain.output_size ∧
    (zeroBrain.get_best_action [0] < (zeroBrain.forward [0]).length ∧
     (∀ j, j < (zeroBrain.forward [0]).length →
       (zeroBrain.forward [0]).getD j 0 ≤
         (zeroBrain.forward [0]).getD (zeroBrain.get_best_action [0]) 0) ∧
     (∀ j, zeroBrain.get_best_action [0] < j → j < (zeroBrain.forward [0]).length →
       (zeroBrain.forward [0]).getD j 0 <
         (zeroBrain.forward [0]).getD (zeroBrain.get_best_action [0]) 0)) :=
  ⟨by simp [zeroBrain], by norm_num [zeroBrain],
   get_best_action_last_argmax zeroBrain [0] (by simp [zeroBrain]) (by norm_num [zeroBrain])⟩

/-- The lifetime total always grows by the gained amount, stored or not. -/
theorem gain_energy_total (c : Cell) (a : ℚ) :
    (c.gain_energy a).total_energy_accumulated = c.total_energy_accumulated + a := by
  simp only [Cell.gain_energy]
  split
  · rfl
  · rfl

/-- C3: applying one recorded collision transfer lowers the corpse's energy
field by exactly the chunk and raises the alive cell's lifetime total by
exactly chunk times the species multiplier, regardless of whether
`gain_energy` stored or discarded the energy. -/
theorem applyTransfer_spec (cells : List Cell) (ai ci : ℕ) (chunk mult : ℚ) (d : Cell)
    (hai : ai < cells.length) (hci : ci < cells.length) (hne : ai ≠ ci) :
    ((applyTransfer cells ai ci chunk mult).getD ci d).energy =
      (cells.getD ci d).energy - chunk ∧
    ((applyTransfer cells ai ci chunk mult).getD ai d).total_energy_accumulated =
      (cells.getD ai d).total_energy_accumulated + chunk * mult := by
  have hlen1 : ci < (modifyAt cells ai (fun c => c.gain_energy (chunk * mult))).length := by
    rw [modifyAt_length]
    exact hci
  constructor
  · simp only [applyTransfer]
    rw [modifyAt_getD_self _ ci _ d hlen1, modifyAt_getD_ne cells ai ci _ d hne]
  · simp only [applyTransfer]
    rw [modifyAt_getD_ne _ ci ai _ d (Ne.symm hne), modifyAt_getD_self cells ai _ d hai]
    exact gain_energy_total _ _

/-- Witness for C3 on a concrete two-cell world: the alive cell at index 0
feeds on the corpse at index 1. -/
theorem applyTransfer_witness :
    ((applyTransfer [richCell, corpseCell] 0 1 50 (3 / 2)).getD 1 brokeCell).energy =
      ([richCell, corpseCell].getD 1 brokeCell).energy - 50 ∧
    ((applyTransfer [richCell, corpseCell] 0 1 50 (3 / 2)).getD 0
        brokeCell).total_energy_accumulated =
      ([richCell, corpseCell].getD 0 brokeCell).total_energy_accumulated + 50 * (3 / 2) :=
  applyTransfer_spec [richCell, corpseCell] 0 1 50 (3 / 2) brokeCell
    (by norm_num) (by norm_num) (by norm_num)

/-- C4 (amended): once the adjustment interval has elapsed, a cap above the
step shrinks by the step when FPS is below the minimum target (ending at a
value that is at least 1 but possibly below the step size, see the
counterexample), a cap at or below the step is left alone, the cap grows by
the step when FPS is above the maximum target, and is unchanged otherwise. -/
theorem adjust_cell_cap_spec (s : CapState) (ft : ℚ)
    (helapsed : ADJUSTMENT_INTERVAL ≤ s.last_adjustment_time + ft) :
    (s.current_fps < TARGET_MIN_FPS → CELL_CAP_STEP < s.max_cells →
      (adjust_cell_cap s ft).max_cells = s.max_cells - CELL_CAP_STEP ∧
        1 ≤ (adjust_cell_cap s ft).max_cells) ∧
    (s.current_fps < TARGET_MIN_FPS → s.max_cells ≤ CELL_CAP_STEP →
      (adjust_cell_cap s ft).max_cells = s.max_cells) ∧
    (¬ s.current_fps < TARGET_MIN_FPS → TARGET_MAX_FPS < s.current_fps →
      (adjust_cell_cap s ft).max_cells = s.max_cells + CELL_CAP_STEP) ∧
    (¬ s.current_fps < TARGET_MIN_FPS → ¬ TARGET_MAX_FPS < s.current_fps →
      (adjust_cell_cap s ft).max_cells = s.max_cells) := by
  have hni : ¬ (s.last_adjustment_time + ft < ADJUSTMENT_INTERVAL) := not_lt.mpr helapsed
  refine ⟨?_, ?_, ?_, ?_⟩
  · intro h1 h2
    simp only [adjust_cell_cap, if_neg hni, if_pos h1, if_pos h2]
    exact ⟨trivial, by omega⟩
  · intro h1 h2
    simp only [adjust_cell_cap, if_neg hni, if_pos h1, if_neg (not_lt.mpr h2)]
  · intro h1 h2
    simp only [adjust_cell_cap, if_neg hni, if_neg h1, if_pos h2]
  · intro h1 h2
    simp only [adjust_cell_cap, if_neg hni, if_neg h1, if_neg h2]

/-- C4 (counterexample): with the interval elapsed, FPS 20 below the
minimum target, and cap 101 just above the step 100, the new cap is 1,
which is below the step size: the claimed floor at the step size does not
hold. -/
theorem adjust_cell_cap_floor_cex :
    ADJUSTMENT_INTERVAL ≤ (2 : ℚ) + 0 ∧ (20 : ℚ) < TARGET_MIN_FPS ∧
    (adjust_cell_cap ⟨2, 20, 101⟩ 0).max_cells = 1 ∧
    (adjust_cell_cap ⟨2, 20, 101⟩ 0).max_cells < CELL_CAP_STEP := by
  refine ⟨by norm_num [ADJUSTMENT_INTERVAL], by norm_num [TARGET_MIN_FPS], ?_, ?_⟩ <;>
    simp +decide [adjust_cell_cap, ADJUSTMENT_INTERVAL, TARGET_MIN_FPS, TARGET_MAX_FPS,
      CELL_CAP_STEP]

/-- Witness for C4 at a concrete state: cap 500, FPS 20, interval elapsed. -/
theorem adjust_cell_cap_spec_witness :
    ADJUSTMENT_INTERVAL ≤ (2 : ℚ) + 0 ∧
    ((adjust_cell_cap ⟨2, 20, 500⟩ 0).max_cells = 500 - CELL_CAP_STEP ∧
      1 ≤ (adjust_cell_cap ⟨2, 20, 500⟩ 0).max_cells) :=
  ⟨by norm_num [ADJUSTMENT_INTERVAL],
   (adjust_cell_cap_spec ⟨2, 20, 500⟩ 0 (by norm_num [ADJUSTMENT_INTERVAL])).1
     (by norm_num [TARGET_MIN_FPS]) (by norm_num [CELL_CAP_STEP])⟩

/-- C8: each locomotion action is all-or-nothing: with energy below the
age-scaled cost the cell is left completely unchanged, and with sufficient
energy the energy drops by exactly the cost and only the corresponding
velocity or angular-velocity change is applied. -/
theorem actions_all_or_nothing (c : Cell) (cosf sinf : ℚ → ℚ) :
    (c.energy < c.turnCost → c.turn_left = c) ∧
    (c.turnCost ≤ c.energy →
      c.turn_left = { c with angle_velocity := c.angle_velocity - c.turn_rate,
                             energy := c.energy - c.turnCost }) ∧
    (c.energy < c.turnCost → c.turn_right = c) ∧
    (c.turnCost ≤ c.energy →
      c.turn_right = { c with angle_velocity := c.angle_velocity + c.turn_rate,
                              energy := c.energy - c.turnCost }) ∧
    (c.energy < c.forwardCost → c.forward cosf sinf = c) ∧
    (c.forwardCost ≤ c.energy →
      c.forward cosf sinf = { c with velocity_x := cosf c.angle * c.speed,
                                     velocity_y := sinf c.angle * c.speed,
                                     energy := c.energy - c.forwardCost }) := by
  refine ⟨?_, ?_, ?_, ?_, ?_, ?_⟩ <;> intro h1
  · simp only [Cell.turn_left]
    rw [if_neg (not_le.mpr h1)]
  · simp only [Cell.turn_left]
    rw [if_pos h1]
  · simp only [Cell.turn_right]
    rw [if_neg (not_le.mpr h1)]
  · simp only [Cell.turn_right]
    rw [if_pos h1]
  · simp only [Cell.forward]
    rw [if_neg (not_le.mpr h1)]
  · simp only [Cell.forward]
    rw [if_pos h1]

/-- Witness for C8: the broke newborn cannot afford a turn and is left
unchanged; the rich adult pays the forward cost exactly. -/
theorem actions_all_or_nothing_witness :
    brokeCell.turn_left = brokeCell ∧
    richCell.forward (fun _ => 1) (fun _ => 0) =
      { richCell with velocity_x := (fun _ : ℚ => (1 : ℚ)) richCell.angle * richCell.speed,
                      velocity_y := (fun _ : ℚ => (0 : ℚ)) richCell.angle * richCell.speed,
                      energy := richCell.energy - richCell.forwardCost } :=
  ⟨(actions_all_or_nothing brokeCell (fun _ => 1) (fun _ => 0)).1
     (by norm_num [brokeCell, Cell.turnCost, Cell.get_age_cost_multiplier, TURN_ENERGY_COST,
       MAX_AGE_FOR_COST, MAX_AGE_COST_MULTIPLIER, min_def]),
   (actions_all_or_nothing richCell (fun _ => 1) (fun _ => 0)).2.2.2.2.2
     (by norm_num [richCell, Cell.forwardCost, Cell.get_age_cost_multiplier,
       FORWARD_ENERGY_COST, MAX_AGE_FOR_COST, MAX_AGE_COST_MULTIPLIER, min_def])⟩

/-- Witness for C6 on a concrete one-cell world with cap 2: the rich cell
splits, keeping a third of its energy and handing two thirds to the child
appended at index 1. -/
theorem handle_reproduction_witness :
    (handle_reproduction 2 id [richCell]).getD 0 brokeCell =
        { [richCell].getD 0 brokeCell with
            energy := ([richCell].getD 0 brokeCell).energy * PARENT_ENERGY_FRAC,
            children_count := ([richCell].getD 0 brokeCell).children_count + 1 } ∧
    (handle_reproduction 2 id [richCell]).getD
        ([richCell].length +
          ((([richCell].take 0).foldl (reproStep 2 [richCell].length id) ([], [])).2).length)
        brokeCell =
        { id ([richCell].getD 0 brokeCell) with
            energy := ([richCell].getD 0 brokeCell).energy * CHILD_ENERGY_FRAC } ∧
    ((([richCell].take (0 + 1)).foldl (reproStep 2 [richCell].length id) ([], [])).2).length =
      ((([richCell].take 0).foldl (reproStep 2 [richCell].length id) ([], [])).2).length + 1 :=
  handle_reproduction_spec 2 id [richCell] 0 brokeCell (by norm_num)
    (by norm_num [richCell]) (by norm_num [richCell, REPRODUCTION_ENERGY_THRESHOLD])
    (by norm_num)

/-- Witness for C7: mutating the concrete all-zero network at rate 0 with
an all-zero sample stream returns it unchanged. -/
theorem mutate_zero_id_witness :
    zeroBrain.mutate 0 (fun _ => 0) = zeroBrain :=
  mutate_zero_id zeroBrain (fun _ => 0) (fun _ => le_refl 0)

end CellsAI
